import Mathlib

/-!
Shallow embedding of `src/main.py` (a Streamlit dashboard for polar-plant
EC-treatment data) and proofs of the specification's claims about its
file-resolution, loading and aggregation logic.

Strings are modelled as lists of Unicode code points (`Name := List Nat`),
so that Unicode normalization can be modelled explicitly.  Python `dict`s
are modelled as association lists with Python insertion semantics.
`pandas` column means are modelled over `Option ℚ` (`none` = missing/NaN).
Fallible Python code (KeyError, FileNotFoundError, `max` on an empty dict)
is modelled with `Option`/`Except`.
-/

namespace PolarPlant

/-- A string, as its list of Unicode code points. -/
abbrev Name := List Nat

/-! ### Unicode NFC model

`normalize_name` in `main.py` is `unicodedata.normalize("NFC", name)`.
We model NFC restricted to Hangul canonical composition — the script of
every Korean name in this repository.  Hangul NFC is algorithmic
(UAX #15): a leading-consonant jamo L (U+1100–U+1112) followed by a vowel
jamo V (U+1161–U+1175) composes to the LV syllable
`0xAC00 + ((L - 0x1100) * 21 + (V - 0x1161)) * 28`, and an LV syllable
followed by a trailing-consonant jamo T (U+11A8–U+11C2) composes to the
LVT syllable `LV + (T - 0x11A7)`.  Non-Hangul code points (ASCII etc.)
pass through unchanged, and already-composed text is a fixed point. -/

/-- Is `c` a Hangul leading-consonant jamo (U+1100–U+1112)? -/
def isL (c : Nat) : Bool := decide (4352 ≤ c ∧ c < 4371)

/-- Is `c` a Hangul vowel jamo (U+1161–U+1175)? -/
def isV (c : Nat) : Bool := decide (4449 ≤ c ∧ c < 4470)

/-- Is `c` a Hangul trailing-consonant jamo (U+11A8–U+11C2)? -/
def isT (c : Nat) : Bool := decide (4520 ≤ c ∧ c < 4547)

/-- Is `c` a Hangul LV syllable (a precomposed syllable with no trailing
consonant), i.e. in U+AC00–U+D7A3 with `(c - 0xAC00) % 28 = 0`? -/
def isLV (c : Nat) : Bool := decide (44032 ≤ c ∧ c < 55204 ∧ (c - 44032) % 28 = 0)

/-- The scan of Hangul canonical composition: `prev` is the pending code
point; it is composed with the next code point when the pair is L·V or
LV·T, and emitted unchanged otherwise. -/
def hangulNFCAux (prev : Nat) : List Nat → List Nat
  | [] => [prev]
  | c :: rest =>
    if isL prev && isV c then
      hangulNFCAux (44032 + ((prev - 4352) * 21 + (c - 4449)) * 28) rest
    else if isLV prev && isT c then
      hangulNFCAux (prev + (c - 4519)) rest
    else
      prev :: hangulNFCAux c rest

/-- Hangul canonical composition: model of
`unicodedata.normalize("NFC", ·)` on the code-point list of a string,
restricted to Hangul (all other code points are left untouched). -/
def hangulNFC : List Nat → List Nat
  | [] => []
  | c :: rest => hangulNFCAux c rest

/-- `normalize_name` from `main.py`: NFC-normalize a name. -/
def normalize_name (name : Name) : Name := hangulNFC name

/-! ### Tables and files -/

/-- One row of an environmental CSV table (`time`, `temperature`,
`humidity`, `ph`, `ec`).  Numeric cells are `Option ℚ`: `none` is a
missing value (pandas NaN). -/
structure EnvRow where
  time : Name
  temperature : Option ℚ
  humidity : Option ℚ
  ph : Option ℚ
  ec : Option ℚ
deriving DecidableEq, Repr

abbrev EnvTable := List EnvRow

/-- One row of a growth-workbook sheet: `생중량(g)` (fresh weight),
`잎 수(장)` (leaf count), `지상부 길이(mm)` (shoot length). -/
structure GrowthRow where
  freshWeight : Option ℚ
  leafCount : Option ℚ
  shootLength : Option ℚ
deriving DecidableEq, Repr

abbrev GrowthTable := List GrowthRow

/-- A directory entry.  `csv` is what `pd.read_csv` would parse from it,
`sheets` is what `pd.ExcelFile`/`pd.read_excel` would parse (sheet name →
sheet table, in workbook order); the loaders consult whichever parse
matches the file's extension. -/
structure FileEntry where
  name : Name
  csv : EnvTable
  sheets : List (Name × GrowthTable)
deriving DecidableEq, Repr

/-- `pathlib`'s `suffix`/`stem` split of a file name: the suffix starts at
the last `.` (code point 46) provided it is neither the first nor the
last character; otherwise the suffix is empty. -/
def splitExt (s : Name) : Name × Name :=
  match ((List.range s.length).filter (fun i => s.get? i == some (46 : Nat))).getLast? with
  | none => (s, [])
  | some i => if 0 < i ∧ i + 1 < s.length then (s.take i, s.drop i) else (s, [])

/-- `p.stem` for a file name. -/
def stem (s : Name) : Name := (splitExt s).1

/-- `p.suffix` for a file name. -/
def fileSuffix (s : Name) : Name := (splitExt s).2

/-- The scan of Python `str.replace(pat, "")`: at skip count `0`, a
position where `pat` occurs removes it (its head now, its remaining
`pat.length - 1` code points via the skip count) and scanning resumes
after it; a positive skip count swallows one code point. -/
def replaceAllAux (pat : List Nat) : Nat → List Nat → List Nat
  | _, [] => []
  | n + 1, _ :: rest => replaceAllAux pat n rest
  | 0, c :: rest =>
    if pat ≠ [] ∧ pat.isPrefixOf (c :: rest) then
      replaceAllAux pat (pat.length - 1) rest
    else
      c :: replaceAllAux pat 0 rest

/-- Python `str.replace(pat, "")`: remove every occurrence of `pat`,
scanning left to right and continuing after each removed occurrence. -/
def replaceAll (pat : List Nat) (s : List Nat) : List Nat :=
  replaceAllAux pat 0 s

/-! ### Python dict model

Insertion into a `dict` updates an existing key in place (keeping its
position) and otherwise appends at the end; lookup returns the value at
the key if present. -/

/-- Python `d[k] = v`. -/
def dictInsert (k : Name) (v : α) : List (Name × α) → List (Name × α)
  | [] => [(k, v)]
  | (k', v') :: rest =>
    if k' = k then (k', v) :: rest else (k', v') :: dictInsert k v rest

/-- Python `d.get(k)` (and `d[k]`, with `none` modelling `KeyError`). -/
def dictGet (d : List (Name × α)) (k : Name) : Option α :=
  (d.find? (fun p => p.1 == k)).map Prod.snd

/-! ### String constants of `main.py` (as code-point lists) -/

/-- `".csv"` -/
def strCsv : Name := [46, 99, 115, 118]

/-- `".xlsx"` -/
def strXlsx : Name := [46, 120, 108, 115, 120]

/-- `"_환경데이터"` (the environment-data filename suffix), NFC as written
in the source file. -/
def envSuffix : Name := [95, 54872, 44221, 45936, 51060, 53552]

/-- `"송도고"` -/
def songdogo : Name := [49569, 46020, 44256]

/-- `"하늘고"` -/
def haneulgo : Name := [54616, 45720, 44256]

/-- `"아라고"` -/
def arago : Name := [50500, 46972, 44256]

/-- `"동산고"` -/
def dongsango : Name := [46041, 49328, 44256]

/-- `EC_INFO`: the fixed treatment-level (target EC) map of `main.py`. -/
def EC_INFO : List (Name × ℚ) :=
  [(songdogo, 1), (haneulgo, 2), (arago, 4), (dongsango, 8)]

/-- `SCHOOL_COLORS`: the fixed chart-color map of `main.py` (values are
the hex color strings, as code-point lists). -/
def SCHOOL_COLORS : List (Name × Name) :=
  [(songdogo, [35, 49, 102, 55, 55, 98, 52]),
   (haneulgo, [35, 50, 99, 97, 48, 50, 99]),
   (arago, [35, 102, 102, 55, 102, 48, 101]),
   (dongsango, [35, 100, 54, 50, 55, 50, 56])]

/-! ### File resolution and loading -/

/-- `find_file` from `main.py`: iterate over the directory entries and
return the first whose NFC-normalized name equals the NFC-normalized
target; `none` (Python `None`) if no entry matches. -/
def find_file : List FileEntry → Name → Option FileEntry
  | [], _ => none
  | p :: rest, target =>
    if normalize_name p.name = normalize_name target then some p
    else find_file rest target

/-- Does a directory entry have the `.csv` extension? -/
def is_csv (e : FileEntry) : Bool := fileSuffix e.name == strCsv

/-- Does a directory entry have the `.xlsx` extension? -/
def is_xlsx (e : FileEntry) : Bool := fileSuffix e.name == strXlsx

/-- The group ("school") label `load_environment_data` derives from a CSV
file: `p.stem.replace("_환경데이터", "")` — every occurrence of the NFC
suffix removed from the raw stem, with no Unicode normalization. -/
def env_label (e : FileEntry) : Name := replaceAll envSuffix (stem e.name)

/-- The loop body of `load_environment_data`: build the
`school name → table` dict over the directory entries in iteration
order, keeping only `.csv` files. -/
def load_environment_core (d : List FileEntry) : List (Name × EnvTable) :=
  d.foldl (fun acc p => if is_csv p then dictInsert (env_label p) p.csv acc else acc) []

/-- The body of `load_growth_data`: take the first `.xlsx` entry in
iteration order (Python `None` = `none` when there is none) and read its
sheets into a `sheet name → table` dict. -/
def load_growth_core (d : List FileEntry) : Option (List (Name × GrowthTable)) :=
  match d.find? is_xlsx with
  | none => none
  | some x => some (x.sheets.foldl (fun acc p => dictInsert p.1 p.2 acc) [])

/-- `load_environment_data` from `main.py`, with the filesystem state made
explicit: the `data` directory is `none` when missing (in which case
`Path.iterdir` raises `FileNotFoundError`, modelled as `Except.error`,
which the function does not catch) and `some entries` when present. -/
def load_environment_data (d : Option (List FileEntry)) :
    Except Unit (List (Name × EnvTable)) :=
  match d with
  | none => Except.error ()
  | some entries => Except.ok (load_environment_core entries)

/-- `load_growth_data` from `main.py`, with the filesystem state made
explicit as in `load_environment_data`.  On a present directory the
result is `some` of `load_growth_core`'s dict, or `none` (Python `None`)
when the directory has no workbook. -/
def load_growth_data (d : Option (List FileEntry)) :
    Except Unit (Option (List (Name × GrowthTable))) :=
  match d with
  | none => Except.error ()
  | some entries => Except.ok (load_growth_core entries)

/-- The caller's guard at `main.py:78`:
`if not env_data or growth_data is None: st.error(...); st.stop()` —
`true` iff the app reports the load error and halts all rendering. -/
def app_halts (env : List (Name × EnvTable)) (growth : Option (List (Name × GrowthTable))) :
    Bool :=
  env.isEmpty || growth.isNone

/-! ### Aggregation -/

/-- `pandas` column mean over `Option ℚ` cells: the arithmetic mean of
the present values, or `none` (NaN) when no value is present. -/
def colMean (xs : List (Option ℚ)) : Option ℚ :=
  match xs.filterMap id with
  | [] => none
  | v :: vs => some ((v :: vs).sum / (v :: vs).length)

/-- One row of the overview table built at `main.py:126-133`. -/
structure OverviewRow where
  school : Name
  ecTarget : ℚ
  count : Nat
  color : Option Name
deriving DecidableEq, Repr

/-- `overview_rows` from `main.py`: one record per entry of `EC_INFO`
(the `ec_map` argument), with `len(growth_data.get(school, []))` as the
count and `SCHOOL_COLORS.get(school)` as the color. -/
def overview_rows (ecMap : List (Name × ℚ)) (growth : List (Name × GrowthTable)) :
    List OverviewRow :=
  ecMap.map (fun p =>
    { school := p.1
      ecTarget := p.2
      count := ((dictGet growth p.1).getD []).length
      color := dictGet SCHOOL_COLORS p.1 })

/-- `mean_weights` from `main.py:141-144`: per school, the mean of the
`생중량(g)` (fresh weight) column of its growth sheet. -/
def mean_weights (growth : List (Name × GrowthTable)) : List (Name × Option ℚ) :=
  growth.map (fun p => (p.1, colMean (p.2.map GrowthRow.freshWeight)))

/-- Python `>` on two possibly-NaN floats: any comparison involving NaN
(`none`) is `False`. -/
def pyGT (a b : Option ℚ) : Bool :=
  match a, b with
  | some x, some y => decide (y < x)
  | _, _ => false

/-- The loop of Python `max(iterable, key=...)` specialised to
`max(mean_weights, key=mean_weights.get)`: keep the current best key and
value, replacing them only when a later value is strictly greater. -/
def pymaxKey : Name → Option ℚ → List (Name × Option ℚ) → Name
  | k, _, [] => k
  | k, v, (k', v') :: rest =>
    if pyGT v' v then pymaxKey k' v' rest else pymaxKey k v rest

/-- `best_school` from `main.py:145`:
`max(mean_weights, key=mean_weights.get)`; `none` models the
`ValueError` Python `max` raises on an empty dict. -/
def best_school (ws : List (Name × Option ℚ)) : Option Name :=
  match ws with
  | [] => none
  | (k, v) :: rest => some (pymaxKey k v rest)

/-- `best_ec` from `main.py:146`: `EC_INFO[best_school]`, with `none`
modelling both the empty-dict `ValueError` and the `KeyError` of a best
school absent from the map. -/
def best_ec (growth : List (Name × GrowthTable)) (ecMap : List (Name × ℚ)) : Option ℚ :=
  (best_school (mean_weights growth)).bind (dictGet ecMap)

/-- The "최적 EC" metric of `main.py:152`, `f"{best_ec} (하늘고)"`, as the
pair of its interpolated value and its hard-coded school label. -/
def optimal_metric (growth : List (Name × GrowthTable)) (ecMap : List (Name × ℚ)) :
    Option (ℚ × Name) :=
  (best_ec growth ecMap).map (fun e => (e, haneulgo))

/-- One row of the per-school environmental-average table built at
`main.py:160-169`. -/
structure AvgRow where
  school : Name
  temp : Option ℚ
  hum : Option ℚ
  ph : Option ℚ
  ec : Option ℚ
  ecTarget : Option ℚ
deriving DecidableEq, Repr

/-- `avg_df` from `main.py`: one record per loaded environmental table,
with column means and `EC_INFO.get(school)` (possibly `None`) as the
target EC. -/
def avg_df (ecMap : List (Name × ℚ)) (env : List (Name × EnvTable)) : List AvgRow :=
  env.map (fun p =>
    { school := p.1
      temp := colMean (p.2.map EnvRow.temperature)
      hum := colMean (p.2.map EnvRow.humidity)
      ph := colMean (p.2.map EnvRow.ph)
      ec := colMean (p.2.map EnvRow.ec)
      ecTarget := dictGet ecMap p.1 })

/-- One row of the per-school weight table built at `main.py:230-237`. -/
structure WeightRow where
  school : Name
  ec : ℚ
  meanWeight : Option ℚ
deriving DecidableEq, Repr

/-- `weight_df` from `main.py`: one record per loaded growth sheet, with
`EC_INFO[school]` looked up by indexing — a school absent from the map
raises `KeyError`, which aborts the whole list comprehension, modelled as
an overall `none`. -/
def weight_df (ecMap : List (Name × ℚ)) : List (Name × GrowthTable) → Option (List WeightRow)
  | [] => some []
  | p :: rest =>
    match dictGet ecMap p.1 with
    | none => none
    | some e =>
      (weight_df ecMap rest).map (fun rows =>
        { school := p.1, ec := e, meanWeight := colMean (p.2.map GrowthRow.freshWeight) } :: rows)

/-- `pandas` `Series.idxmax` (with the default `skipna`): the index of
the first occurrence of the largest non-NaN value, or `none` (pandas
raises) when no value is present. -/
def idxmaxGo (best : Option (Nat × ℚ)) (i : Nat) : List (Option ℚ) → Option (Nat × ℚ)
  | [] => best
  | none :: rest => idxmaxGo best (i + 1) rest
  | some x :: rest =>
    match best with
    | none => idxmaxGo (some (i, x)) (i + 1) rest
    | some (j, m) =>
      if m < x then idxmaxGo (some (i, x)) (i + 1) rest
      else idxmaxGo (some (j, m)) (i + 1) rest

/-- `Series.idxmax` over an `Option ℚ` column. -/
def idxmax (xs : List (Option ℚ)) : Option Nat :=
  (idxmaxGo none 0 xs).map Prod.fst

/-- `best_row` from `main.py:239`:
`weight_df.loc[weight_df["평균 생중량"].idxmax()]`. -/
def best_row (ecMap : List (Name × ℚ)) (growth : List (Name × GrowthTable)) :
    Option WeightRow :=
  (weight_df ecMap growth).bind (fun rows =>
    (idxmax (rows.map WeightRow.meanWeight)).bind (fun i => rows.get? i))

/-- The delta text of the "최대 평균 생중량" metric at `main.py:244`,
`f"EC {best_row['EC']} (하늘고)"`, as the pair of its interpolated EC
value and its hard-coded school label. -/
def delta_label (ecMap : List (Name × ℚ)) (growth : List (Name × GrowthTable)) :
    Option (ℚ × Name) :=
  (best_row ecMap growth).map (fun r => (r.ec, haneulgo))

/-! ### Concrete fixtures

Directory entries and tables used by the witnesses and counterexamples
below.  Code-point lists spell the quoted file and sheet names. -/

/-- `"하늘고"` in NFD (decomposed jamo). -/
def nfdHaneulgo : Name := [4370, 4449, 4354, 4467, 4527, 4352, 4457]

/-- `"A_환경데이터"` in NFD (decomposed jamo). -/
def nfdStemA : Name :=
  [65, 95, 4370, 4458, 4523, 4352, 4455, 4540, 4355, 4454, 4363, 4469, 4368, 4453]

/-- A file named `"하늘고.csv"` with the Hangul in decomposed (NFD) form. -/
def fileNfdHaneulgo : FileEntry := ⟨nfdHaneulgo ++ strCsv, [], []⟩

/-- The two 환경데이터 rows of the specification's worked example:
temperatures 20 and 22, humidities 60 and 65 (pH 6 and 7, EC 2 and 3). -/
def envRowsA : EnvTable :=
  [⟨[116, 49], some 20, some 60, some 6, some 2⟩,
   ⟨[116, 50], some 22, some 65, some 7, some 3⟩]

/-- The two growth rows of the worked example: fresh weights 1.0 and 1.5. -/
def growthRowsA : GrowthTable :=
  [⟨some 1, some 5, some 10⟩, ⟨some (3 / 2), some 6, some 11⟩]

/-- `"A_환경데이터.csv"` (NFC) holding the example environmental rows. -/
def fileAenv : FileEntry := ⟨[65] ++ envSuffix ++ strCsv, envRowsA, []⟩

/-- The same logical file with its name in NFD form. -/
def fileAnfd : FileEntry := ⟨nfdStemA ++ strCsv, envRowsA, []⟩

/-- `"A.csv"`: a CSV whose derived label collides with `fileAenv`'s. -/
def fileAplain : FileEntry := ⟨[65] ++ strCsv, [], []⟩

/-- `"wb.xlsx"`: the example workbook, one sheet `"A"`. -/
def wbA : FileEntry := ⟨[119, 98] ++ strXlsx, [], [([65], growthRowsA)]⟩

/-- `"b1.xlsx"`: a workbook with one sheet `"A"`. -/
def wb1 : FileEntry := ⟨[98, 49] ++ strXlsx, [], [([65], [⟨some 1, some 1, some 1⟩])]⟩

/-- `"b2.xlsx"`: a workbook with no sheet. -/
def wb2 : FileEntry := ⟨[98, 50] ++ strXlsx, [], []⟩

/-- The worked example's directory: `A_환경데이터.csv` and the workbook. -/
def dirA : List FileEntry := [fileAenv, wbA]

/-- The worked example's treatment-level configuration `{A: 2.0}`. -/
def ecMapA : List (Name × ℚ) := [([65], 2)]

/-- A directory whose three CSVs derive only two distinct labels, one of
them in decomposed form. -/
def cdirC2 : List FileEntry := [fileAenv, fileAplain, fileAnfd]

/-- A growth mapping with the single group `"X"`, absent from `EC_INFO`. -/
def growthX : List (Name × GrowthTable) := [([88], [⟨some 1, some 1, some 1⟩])]

/-- An environmental mapping with the single group `"X"`. -/
def envX : List (Name × EnvTable) := [([88], [⟨[116], some 1, some 1, some 1, some 1⟩])]

/-- A directory containing only a CSV, no workbook. -/
def csvOnlyDir : List FileEntry := [fileAplain]

/-- Growth tables where group `"A"`'s fresh-weight column is entirely
missing while group `"B"`'s has a value. -/
def growthNaN : List (Name × GrowthTable) :=
  [([65], [⟨none, some 1, some 1⟩]), ([66], [⟨some 1, some 1, some 1⟩])]

/-- Growth tables where 송도고 (EC 1.0) attains the maximal mean fresh
weight, not 하늘고. -/
def growth10 : List (Name × GrowthTable) :=
  [(songdogo, [⟨some 10, some 1, some 1⟩]), (haneulgo, [⟨some 1, some 1, some 1⟩])]

/-! ## Helper lemmas -/

/-- When some directory entry matches the target under NFC, `find_file`
returns the first matching entry. -/
theorem find_file_first_match (t : Name) :
    ∀ d : List FileEntry, (∃ e ∈ d, normalize_name e.name = normalize_name t) →
    ∃ pre e post, d = pre ++ e :: post ∧ find_file d t = some e ∧
      normalize_name e.name = normalize_name t ∧
      ∀ e' ∈ pre, normalize_name e'.name ≠ normalize_name t := by
  intro d
  induction d with
  | nil => intro h; simp at h
  | cons p rest ih =>
    intro h
    by_cases hp : normalize_name p.name = normalize_name t
    · exact ⟨[], p, rest, rfl, by simp [find_file, hp], hp, by simp⟩
    · have h' : ∃ e ∈ rest, normalize_name e.name = normalize_name t := by
        obtain ⟨e, he, hne⟩ := h
        rcases List.mem_cons.mp he with heq | hm
        · exact absurd (heq ▸ hne) hp
        · exact ⟨e, hm, hne⟩
      obtain ⟨pre, e, post, hd, hf, hne, hpre⟩ := ih h'
      refine ⟨p :: pre, e, post, by simp [hd], ?_, hne, ?_⟩
      · simpa [find_file, hp] using hf
      · intro e' he'
        rcases List.mem_cons.mp he' with heq | hm
        · exact heq ▸ hp
        · exact hpre e' hm

/-- When no directory entry matches the target under NFC, `find_file`
returns `none`. -/
theorem find_file_no_match (t : Name) :
    ∀ d : List FileEntry, (∀ e ∈ d, normalize_name e.name ≠ normalize_name t) →
    find_file d t = none := by
  intro d
  induction d with
  | nil => intro _; rfl
  | cons p rest ih =>
    intro h
    have hp := h p (List.mem_cons_self p rest)
    simp only [find_file, if_neg hp]
    exact ih (fun e he => h e (List.mem_cons_of_mem p he))

/-- `find_file` depends on the target only through its NFC form. -/
theorem find_file_congr (d : List FileEntry) (t₁ t₂ : Name)
    (h : normalize_name t₁ = normalize_name t₂) :
    find_file d t₁ = find_file d t₂ := by
  induction d with
  | nil => rfl
  | cons p rest ih => simp only [find_file, h, ih]

/-- Membership in the keys of a dict after insertion. -/
theorem mem_keys_dictInsert {α : Type} (a k : Name) (v : α) :
    ∀ d : List (Name × α),
      (a ∈ (dictInsert k v d).map Prod.fst ↔ a ∈ d.map Prod.fst ∨ a = k) := by
  intro d
  induction d with
  | nil => simp [dictInsert]
  | cons p rest ih =>
    by_cases hp : p.1 = k
    · simp only [dictInsert, if_pos hp, List.map_cons, List.mem_cons]
      constructor
      · rintro (h | h)
        · exact Or.inl (Or.inl h)
        · exact Or.inl (Or.inr h)
      · rintro ((h | h) | h)
        · exact Or.inl h
        · exact Or.inr h
        · exact Or.inl (h ▸ hp.symm)
    · simp only [dictInsert, if_neg hp, List.map_cons, List.mem_cons, ih]
      tauto

/-- Insertion of a fresh key appends it at the end of the dict. -/
theorem dictInsert_eq_append {α : Type} (k : Name) (v : α) :
    ∀ d : List (Name × α), k ∉ d.map Prod.fst → dictInsert k v d = d ++ [(k, v)] := by
  intro d
  induction d with
  | nil => intro _; rfl
  | cons p rest ih =>
    obtain ⟨k', v'⟩ := p
    intro h
    simp only [List.map_cons, List.mem_cons] at h
    push_neg at h
    have hne : ¬ (k' = k) := fun hh => h.1 hh.symm
    simp only [dictInsert, if_neg hne, List.cons_append, List.cons.injEq, true_and]
    exact ih h.2

/-- Insertion preserves distinctness of the dict's keys. -/
theorem dictInsert_keys_nodup {α : Type} (k : Name) (v : α) :
    ∀ d : List (Name × α), (d.map Prod.fst).Nodup → ((dictInsert k v d).map Prod.fst).Nodup := by
  intro d
  induction d with
  | nil => intro _; simp [dictInsert]
  | cons p rest ih =>
    intro h
    simp only [List.map_cons, List.nodup_cons] at h
    by_cases hp : p.1 = k
    · simp only [dictInsert, if_pos hp, List.map_cons, List.nodup_cons]
      exact h
    · simp only [dictInsert, if_neg hp, List.map_cons, List.nodup_cons]
      refine ⟨?_, ih h.2⟩
      intro hmem
      rcases (mem_keys_dictInsert p.1 k v rest).mp hmem with hm | he
      · exact h.1 hm
      · exact hp he

/-- The loader's fold over the directory, with a general accumulator:
when the derived labels of the CSV entries are pairwise distinct and
fresh for the accumulator, the fold appends one entry per CSV file in
iteration order. -/
theorem load_env_foldl (d : List FileEntry) :
    ∀ acc : List (Name × EnvTable),
      ((d.filter is_csv).map env_label).Nodup →
      (∀ e ∈ d, is_csv e = true → env_label e ∉ acc.map Prod.fst) →
      d.foldl (fun acc p => if is_csv p then dictInsert (env_label p) p.csv acc else acc) acc =
        acc ++ (d.filter is_csv).map (fun e => (env_label e, e.csv)) := by
  induction d with
  | nil => intro acc _ _; simp
  | cons p rest ih =>
    intro acc hnd hacc
    by_cases hp : is_csv p = true
    · have hfc : (p :: rest).filter is_csv = p :: rest.filter is_csv :=
        List.filter_cons_of_pos hp
      rw [hfc, List.map_cons, List.nodup_cons] at hnd
      have hlab : env_label p ∉ acc.map Prod.fst :=
        hacc p (List.mem_cons_self p rest) hp
      rw [List.foldl_cons]
      simp only [hp, if_true]
      rw [dictInsert_eq_append (env_label p) p.csv acc hlab]
      rw [ih (acc ++ [(env_label p, p.csv)]) hnd.2 ?fresh]
      · simp [hfc]
      case fresh =>
        intro e he hcsv
        simp only [List.map_append, List.map_cons, List.map_nil, List.mem_append,
          List.mem_singleton]
        rintro (hin | heq)
        · exact hacc e (List.mem_cons_of_mem p he) hcsv hin
        · exact hnd.1 (heq ▸ List.mem_map_of_mem env_label (List.mem_filter_of_mem he hcsv))
    · have hfc : (p :: rest).filter is_csv = rest.filter is_csv :=
        List.filter_cons_of_neg (by simp [hp])
      rw [hfc] at hnd
      rw [List.foldl_cons]
      simp only [hp, if_false, Bool.false_eq_true]
      rw [ih acc hnd (fun e he => hacc e (List.mem_cons_of_mem p he))]
      rw [hfc]

/-- With pairwise-distinct derived labels, `load_environment_core` is the
CSV entries in iteration order, keyed by derived label. -/
theorem load_environment_core_eq (d : List FileEntry)
    (h : ((d.filter is_csv).map env_label).Nodup) :
    load_environment_core d = (d.filter is_csv).map (fun e => (env_label e, e.csv)) := by
  have hmain := load_env_foldl d [] h (by simp)
  simpa [load_environment_core] using hmain

/-- When every growth group is present in the treatment-level map,
`weight_df` does not fault: it yields one record per growth group, in
order, each carrying its configured level. -/
theorem weight_df_total (ecMap : List (Name × ℚ)) :
    ∀ growth : List (Name × GrowthTable),
      (∀ p ∈ growth, (dictGet ecMap p.1).isSome = true) →
      ∃ rows, weight_df ecMap growth = some rows ∧
        rows.map WeightRow.school = growth.map Prod.fst ∧
        ∀ r ∈ rows, dictGet ecMap r.school = some r.ec := by
  intro growth
  induction growth with
  | nil => exact fun _ => ⟨[], rfl, rfl, by simp⟩
  | cons p rest ih =>
    intro h
    obtain ⟨e, he⟩ := Option.isSome_iff_exists.mp (h p (List.mem_cons_self p rest))
    obtain ⟨rows, hrows, hmap, hall⟩ := ih (fun q hq => h q (List.mem_cons_of_mem p hq))
    refine ⟨{ school := p.1, ec := e,
              meanWeight := colMean (p.2.map GrowthRow.freshWeight) } :: rows, ?_, ?_, ?_⟩
    · simp only [weight_df, he, hrows]
      rfl
    · simp only [List.map_cons, hmap]
    · intro r hr
      rcases List.mem_cons.mp hr with heq | hm
      · rw [heq]
        exact he
      · exact hall r hm

/-- The keys of `load_environment_core` are always pairwise distinct
(they are keys of a Python dict). -/
theorem load_env_keys_nodup (d : List FileEntry) :
    ((load_environment_core d).map Prod.fst).Nodup := by
  suffices hgen : ∀ acc : List (Name × EnvTable), (acc.map Prod.fst).Nodup →
      ((d.foldl (fun acc p => if is_csv p then dictInsert (env_label p) p.csv acc else acc)
        acc).map Prod.fst).Nodup by
    exact hgen [] (by simp)
  induction d with
  | nil => intro acc h; simpa using h
  | cons p rest ih =>
    intro acc h
    rw [List.foldl_cons]
    by_cases hp : is_csv p = true
    · simp only [hp, if_true]
      exact ih (dictInsert (env_label p) p.csv acc) (dictInsert_keys_nodup _ _ acc h)
    · simp only [hp, if_false, Bool.false_eq_true]
      exact ih acc h

/-! ## Claims -/

/-- C1: for every directory and target name, `find_file` returns an entry
of the directory whenever some entry's name equals the target after both
are NFC-normalized — namely the first such entry — and otherwise returns
the distinct not-found value `none`; consequently two targets with the
same NFC form (e.g. the composed and the decomposed spelling of one
logical Hangul name) resolve to the same file. -/
theorem find_file_resolves_under_nfc (d : List FileEntry) (t t₁ t₂ : Name) :
    ((∃ e ∈ d, normalize_name e.name = normalize_name t) →
      ∃ pre e post, d = pre ++ e :: post ∧ find_file d t = some e ∧
        normalize_name e.name = normalize_name t ∧
        ∀ e' ∈ pre, normalize_name e'.name ≠ normalize_name t) ∧
    ((∀ e ∈ d, normalize_name e.name ≠ normalize_name t) → find_file d t = none) ∧
    (normalize_name t₁ = normalize_name t₂ → find_file d t₁ = find_file d t₂) :=
  ⟨find_file_first_match t d, find_file_no_match t d, find_file_congr d t₁ t₂⟩

/-- C1 witness: in a directory holding `"하늘고.csv"` spelled in NFD, the
NFC-spelled and the NFD-spelled target resolve to the same (decomposed)
file, and a target matching no entry yields `none`. -/
theorem find_file_resolves_under_nfc_witness :
    find_file [fileNfdHaneulgo] (haneulgo ++ strCsv) =
      find_file [fileNfdHaneulgo] (nfdHaneulgo ++ strCsv) ∧
    find_file [fileNfdHaneulgo] (haneulgo ++ strCsv) = some fileNfdHaneulgo ∧
    find_file [fileNfdHaneulgo] songdogo = none :=
  ⟨(find_file_resolves_under_nfc [fileNfdHaneulgo] []
      (haneulgo ++ strCsv) (nfdHaneulgo ++ strCsv)).2.2 (by decide),
   by decide,
   (find_file_resolves_under_nfc [fileNfdHaneulgo] songdogo songdogo songdogo).2.1
     (by decide)⟩

/-- C2 counterexample: a directory with three `.csv` files — NFC
`A_환경데이터.csv`, `A.csv`, and `A_환경데이터.csv` spelled in NFD — yields a
mapping with only two entries (the first two filenames derive the same
label `"A"`), and the NFD file's key is not NFC-normalized (the NFC
suffix is not even removed from the decomposed stem). -/
theorem load_environment_labels_counterexample :
    (cdirC2.filter is_csv).length = 3 ∧
    (load_environment_core cdirC2).length = 2 ∧
    nfdStemA ∈ (load_environment_core cdirC2).map Prod.fst ∧
    normalize_name nfdStemA ≠ nfdStemA := by
  decide

/-- C2 (amended): for a directory whose qualifying `.csv` files derive
pairwise-distinct labels (the raw stem with all occurrences of the NFC
suffix `_환경데이터` removed, with no Unicode normalization),
`load_environment_data` returns a mapping with exactly one entry per
qualifying file, keyed by those derived labels, which are pairwise
distinct. -/
theorem load_environment_labels (d : List FileEntry)
    (h : ((d.filter is_csv).map env_label).Nodup) :
    (load_environment_core d).map Prod.fst = (d.filter is_csv).map env_label ∧
    ((load_environment_core d).map Prod.fst).Nodup ∧
    (load_environment_core d).length = (d.filter is_csv).length := by
  refine ⟨?_, load_env_keys_nodup d, ?_⟩
  · rw [load_environment_core_eq d h, List.map_map]
    rfl
  · rw [load_environment_core_eq d h, List.length_map]

/-- C2 witness: the worked example's directory has one qualifying CSV and
the loader returns exactly one entry, keyed `"A"`. -/
theorem load_environment_labels_witness :
    (load_environment_core dirA).map Prod.fst = [[65]] ∧
    (load_environment_core dirA).length = 1 :=
  ⟨((load_environment_labels dirA (by decide)).1).trans (by decide),
   ((load_environment_labels dirA (by decide)).2.2).trans (by decide)⟩

/-- C3 counterexample: group `"X"` is present in the growth source
mapping but, being absent from `EC_INFO`, no output record carries it —
`overview_rows` only has records for `EC_INFO`'s groups, and `weight_df`
aborts with a `KeyError` instead of producing records. -/
theorem join_by_group_counterexample :
    (dictGet growthX [88]).isSome = true ∧
    [88] ∉ (overview_rows EC_INFO growthX).map OverviewRow.school ∧
    weight_df EC_INFO growthX = none := by
  decide

/-- C3 (amended): `overview_rows` contains exactly one record per group
of the treatment-level configuration (regardless of the source mappings),
each carrying that group's non-null configured level; and when every
group of the growth mapping is present in the configuration, `weight_df`
produces one record per growth group, each carrying its non-null
configured level (a growth group absent from the configuration instead
aborts `weight_df` with a `KeyError`). -/
theorem join_by_group_configured (ecMap : List (Name × ℚ))
    (growth : List (Name × GrowthTable))
    (h : ∀ p ∈ growth, (dictGet ecMap p.1).isSome = true) :
    (overview_rows ecMap growth).map OverviewRow.school = ecMap.map Prod.fst ∧
    (∀ r ∈ overview_rows ecMap growth, (r.school, r.ecTarget) ∈ ecMap) ∧
    ∃ rows, weight_df ecMap growth = some rows ∧
      rows.map WeightRow.school = growth.map Prod.fst ∧
      ∀ r ∈ rows, dictGet ecMap r.school = some r.ec := by
  refine ⟨?_, ?_, ?_⟩
  · rw [overview_rows, List.map_map]
    rfl
  · intro r hr
    obtain ⟨p, hp, hpr⟩ := List.mem_map.mp hr
    have : (r.school, r.ecTarget) = p := by rw [← hpr]
    exact this ▸ hp
  · exact weight_df_total ecMap growth h

/-- C3 witness: with `EC_INFO` and the two-group growth fixture (송도고
and 하늘고, both configured), the overview covers exactly `EC_INFO`'s four
groups and `weight_df` yields one record per growth group. -/
theorem join_by_group_configured_witness :
    (overview_rows EC_INFO growth10).map OverviewRow.school =
      [songdogo, haneulgo, arago, dongsango] ∧
    Option.map (List.map WeightRow.school) (weight_df EC_INFO growth10) =
      some [songdogo, haneulgo] := by
  have h := join_by_group_configured EC_INFO growth10 (by decide)
  obtain ⟨rows, h1, h2, _⟩ := h.2.2
  refine ⟨h.1.trans (by decide), ?_⟩
  rw [h1, Option.map_some', h2]
  decide

/-- C4: at the failing input — a growth sheet for group `"X"` absent from
`EC_INFO` — the growth aggregation faults with a `KeyError` instead of
carrying a null treatment level, while the environmental aggregation of
the same unconfigured group degrades gracefully to a `none` target EC
with its record still produced. -/
theorem unconfigured_group_aggregation_fault :
    weight_df EC_INFO growthX = none ∧
    avg_df EC_INFO envX =
      [{ school := [88], temp := some 1, hum := some 1, ph := some 1, ec := some 1,
         ecTarget := none }] := by
  refine ⟨by decide, ?_⟩
  have hd : dictGet EC_INFO ([88] : Name) = none := by decide
  simp [avg_df, envX, colMean, hd]

/-- C5 counterexample: on a directory with no workbook,
`load_growth_data` returns Python `None` — a sentinel distinct from an
empty mapping, refuting the claim that an empty mapping is returned. -/
theorem load_growth_no_workbook_counterexample :
    load_growth_core csvOnlyDir = none ∧ load_growth_core csvOnlyDir ≠ some [] := by
  decide

/-- C5 (amended): for every directory containing no `.xlsx` workbook,
`load_growth_data` returns the `None` sentinel (not an empty mapping),
and the caller's guard treats that sentinel as the reportable condition
and halts rendering. -/
theorem load_growth_no_workbook (d : List FileEntry) (env : List (Name × EnvTable))
    (h : ∀ e ∈ d, is_xlsx e = false) :
    load_growth_core d = none ∧ app_halts env (load_growth_core d) = true := by
  have hfind : d.find? is_xlsx = none := by
    rw [List.find?_eq_none]
    intro x hx
    simp [h x hx]
  constructor
  · simp [load_growth_core, hfind]
  · simp [load_growth_core, hfind, app_halts]

/-- C5 witness: the CSV-only directory has no workbook; the loader
returns `none` and the caller halts. -/
theorem load_growth_no_workbook_witness :
    load_growth_core csvOnlyDir = none ∧
    app_halts [] (load_growth_core csvOnlyDir) = true :=
  load_growth_no_workbook csvOnlyDir [] (by decide)

/-- C6 counterexample: a group whose fresh-weight column has zero present
values gets the NaN mean `none`, which is not signaled: it flows into
`best_school`'s `max` as an ordinary value, where NaN comparison
semantics even make the all-missing group `"A"` win over group `"B"`'s
genuine mean. -/
theorem col_mean_nan_counterexample :
    mean_weights growthNaN = [([65], none), ([66], some 1)] ∧
    best_school (mean_weights growthNaN) = some [65] := by
  have h1 : mean_weights growthNaN = [([65], none), ([66], some 1)] := by
    simp [mean_weights, growthNaN, colMean]
  refine ⟨h1, ?_⟩
  rw [h1]
  decide

/-- C6 (amended): the column mean is the arithmetic mean of the present
values only — with one missing value among three rows it equals the mean
of the remaining two — and with zero present values it is the undefined
marker `none` (NaN); that marker is not signaled to the caller: every
group keeps its entry in `mean_weights`, undefined or not, and flows into
downstream aggregation as a value. -/
theorem col_mean_skips_missing (xs : List (Option ℚ)) (a b : ℚ)
    (h : xs.filterMap id ≠ []) :
    colMean [some a, none, some b] = some ((a + b) / 2) ∧
    (∀ ys : List (Option ℚ), ys.filterMap id = [] → colMean ys = none) ∧
    colMean xs = some ((xs.filterMap id).sum / (xs.filterMap id).length) ∧
    (∀ g : List (Name × GrowthTable), (mean_weights g).map Prod.fst = g.map Prod.fst) := by
  refine ⟨?_, ?_, ?_, ?_⟩
  · simp [colMean]
  · intro ys hys
    simp [colMean, hys]
  · obtain ⟨v, vs, hvs⟩ := List.exists_cons_of_ne_nil h
    simp only [colMean, hvs]
  · intro g
    simp [mean_weights]

/-- C6 witness: the mean of a column with one missing value among three
is the mean of the remaining two, and an all-missing column has mean
`none`. -/
theorem col_mean_skips_missing_witness :
    colMean [some (1 : ℚ), none, some 3] = some ((1 + 3) / 2) ∧
    colMean ([none] : List (Option ℚ)) = none := by
  have h := col_mean_skips_missing [some (1 : ℚ)] 1 3 (by simp)
  exact ⟨h.1, h.2.1 [none] (by simp)⟩

/-- C9 counterexample: with the data directory missing, both loaders
propagate the filesystem fault (`Path.iterdir` raises
`FileNotFoundError`, modelled as `Except.error`) — neither yields a
caught, reportable error with an empty result. -/
theorem missing_directory_counterexample :
    load_environment_data none = Except.error () ∧
    load_growth_data none = Except.error () ∧
    load_environment_data none ≠ Except.ok [] ∧
    load_growth_data none ≠ Except.ok none := by
  refine ⟨rfl, rfl, ?_, ?_⟩ <;> exact fun h => Except.noConfusion h

/-- C9 (amended): a missing data directory makes both loaders propagate
the uncaught filesystem fault; a present but empty directory yields an
empty mapping from the environmental loader and the `None` sentinel from
the growth loader, with no fault, and the caller's guard then reports the
error and halts all further rendering. -/
theorem directory_error_handling :
    load_environment_data none = Except.error () ∧
    load_growth_data none = Except.error () ∧
    load_environment_data (some []) = Except.ok [] ∧
    load_growth_data (some []) = Except.ok none ∧
    app_halts [] none = true :=
  ⟨rfl, rfl, rfl, rfl, rfl⟩

/-- A dict with distinct keys maps `k` to `v` whenever `(k, v)` is one of
its entries. -/
theorem dictGet_eq_some_of_mem {α : Type} (k : Name) (v : α) :
    ∀ d : List (Name × α), (d.map Prod.fst).Nodup → (k, v) ∈ d → dictGet d k = some v := by
  intro d
  induction d with
  | nil => intro _ h; simp at h
  | cons p rest ih =>
    intro hnd hm
    simp only [List.map_cons, List.nodup_cons] at hnd
    rcases List.mem_cons.mp hm with heq | hm'
    · rw [← heq]
      simp [dictGet, List.find?_cons_of_pos]
    · have hne : (p.1 == k) = false := by
        simp only [beq_eq_false_iff_ne, ne_eq]
        intro he
        exact hnd.1 (he ▸ List.mem_map_of_mem Prod.fst hm')
      simp only [dictGet, List.find?, hne]
      exact ih hnd.2 hm'

/-- A dict maps `k` to `none` exactly when `k` is not among its keys. -/
theorem dictGet_eq_none_iff {α : Type} (k : Name) (d : List (Name × α)) :
    dictGet d k = none ↔ k ∉ d.map Prod.fst := by
  simp only [dictGet, Option.map_eq_none', List.find?_eq_none, beq_iff_eq, List.mem_map]
  constructor
  · rintro h ⟨p, hp, hpk⟩
    exact h p hp hpk
  · intro h p hp hpk
    exact h ⟨p, hp, hpk⟩

/-- A successful dict lookup comes from an entry of the dict. -/
theorem mem_of_dictGet_eq_some {α : Type} {k : Name} {v : α} {d : List (Name × α)}
    (h : dictGet d k = some v) : (k, v) ∈ d := by
  simp only [dictGet, Option.map_eq_some'] at h
  obtain ⟨p, hf, hsnd⟩ := h
  have hmem := List.mem_of_find?_eq_some hf
  have hpk := List.find?_some hf
  obtain ⟨p1, p2⟩ := p
  simp only [beq_iff_eq] at hpk
  simp only at hsnd
  rw [← hpk, ← hsnd]
  exact hmem

/-- Lookup in a dict with distinct keys is invariant under permutation of
its entries. -/
theorem dictGet_perm {α : Type} (d₁ d₂ : List (Name × α)) (hp : d₁.Perm d₂)
    (hn : (d₁.map Prod.fst).Nodup) (k : Name) :
    dictGet d₁ k = dictGet d₂ k := by
  have hn₂ : (d₂.map Prod.fst).Nodup := ((hp.map Prod.fst).nodup_iff).mp hn
  cases h : dictGet d₁ k with
  | none =>
    have hk₁ := (dictGet_eq_none_iff k d₁).mp h
    have hk₂ : k ∉ d₂.map Prod.fst := fun hm => hk₁ ((hp.map Prod.fst).mem_iff.mpr hm)
    exact ((dictGet_eq_none_iff k d₂).mpr hk₂).symm
  | some v =>
    exact (dictGet_eq_some_of_mem k v d₂ hn₂ (hp.mem_iff.mp (mem_of_dictGet_eq_some h))).symm

/-- When at most one element of a list satisfies `p`, `find?` returns any
satisfying member. -/
theorem find?_eq_of_countP_le_one {α : Type} (p : α → Bool) :
    ∀ l : List α, l.countP p ≤ 1 → ∀ x ∈ l, p x = true → l.find? p = some x := by
  intro l
  induction l with
  | nil => intro _ x hx; simp at hx
  | cons a rest ih =>
    intro hc x hx hpx
    by_cases ha : p a = true
    · have hcr : rest.countP p = 0 := by
        rw [List.countP_cons_of_pos p rest ha] at hc
        omega
      rw [List.find?_cons_of_pos _ ha]
      rcases List.mem_cons.mp hx with heq | hm
      · rw [heq]
      · exact absurd hpx (List.countP_eq_zero.mp hcr x hm)
    · rw [List.find?_cons_of_neg _ (by simpa using ha)]
      rcases List.mem_cons.mp hx with heq | hm
      · exact absurd (heq ▸ hpx) ha
      · refine ih ?_ x hm hpx
        rw [List.countP_cons_of_neg p rest (by simpa using ha)] at hc
        exact hc

/-- The growth loader is invariant under permutation of the directory
entries when the directory holds at most one workbook. -/
theorem load_growth_core_perm (d₁ d₂ : List FileEntry) (hperm : d₁.Perm d₂)
    (hcount : d₁.countP is_xlsx ≤ 1) :
    load_growth_core d₁ = load_growth_core d₂ := by
  cases h : d₁.find? is_xlsx with
  | none =>
    have hall := List.find?_eq_none.mp h
    have h₂ : d₂.find? is_xlsx = none :=
      List.find?_eq_none.mpr (fun x hx => hall x (hperm.mem_iff.mpr hx))
    simp [load_growth_core, h, h₂]
  | some x =>
    have hx : is_xlsx x = true := List.find?_some h
    have hmem : x ∈ d₁ := List.mem_of_find?_eq_some h
    have hc₂ : d₂.countP is_xlsx ≤ 1 := by
      rw [← hperm.countP_eq is_xlsx]
      exact hcount
    have h₂ : d₂.find? is_xlsx = some x :=
      find?_eq_of_countP_le_one is_xlsx d₂ hc₂ x (hperm.mem_iff.mp hmem) hx
    simp [load_growth_core, h, h₂]

/-- C7 counterexample: equal sets of directory entries do not always
yield equal results — with two workbooks the growth loader returns
whichever enumerates first, and a CSV whose name is stored in decomposed
(NFD) form yields a different environmental mapping than the same logical
name stored composed (NFC). -/
theorem loaders_order_counterexample :
    [wb1, wb2].Perm [wb2, wb1] ∧
    load_growth_core [wb1, wb2] ≠ load_growth_core [wb2, wb1] ∧
    normalize_name fileAnfd.name = normalize_name fileAenv.name ∧
    load_environment_core [fileAnfd] ≠ load_environment_core [fileAenv] := by
  refine ⟨List.Perm.swap wb2 wb1 [], ?_, ?_, ?_⟩ <;> decide

/-- C7 (amended): for two enumerations of the same directory entries —
when the CSV files' derived labels are pairwise distinct and the directory
holds at most one workbook — the environmental mapping is the same
key-to-table function and the growth mapping is equal; the outputs are
not, however, invariant under changing the Unicode normalization form of
the stored filenames (see the counterexample). -/
theorem loaders_order_independent (d₁ d₂ : List FileEntry)
    (hperm : d₁.Perm d₂)
    (hnodup : ((d₁.filter is_csv).map env_label).Nodup)
    (hcount : d₁.countP is_xlsx ≤ 1) :
    (∀ k, dictGet (load_environment_core d₁) k = dictGet (load_environment_core d₂) k) ∧
    load_growth_core d₁ = load_growth_core d₂ := by
  constructor
  · intro k
    have hpf : (d₁.filter is_csv).Perm (d₂.filter is_csv) := hperm.filter is_csv
    have hnd₂ : ((d₂.filter is_csv).map env_label).Nodup :=
      ((hpf.map env_label).nodup_iff).mp hnodup
    have hpm : (load_environment_core d₁).Perm (load_environment_core d₂) := by
      rw [load_environment_core_eq d₁ hnodup, load_environment_core_eq d₂ hnd₂]
      exact hpf.map _
    exact dictGet_perm _ _ hpm (load_env_keys_nodup d₁) k
  · exact load_growth_core_perm d₁ d₂ hperm hcount

/-- C7 witness: swapping the example CSV and a workbook in the directory
listing leaves the lookup of group `"A"` and the whole growth mapping
unchanged. -/
theorem loaders_order_independent_witness :
    dictGet (load_environment_core [fileAenv, wb1]) [65] =
      dictGet (load_environment_core [wb1, fileAenv]) [65] ∧
    load_growth_core [fileAenv, wb1] = load_growth_core [wb1, fileAenv] := by
  have h := loaders_order_independent [fileAenv, wb1] [wb1, fileAenv]
    (List.Perm.swap wb1 fileAenv []) (by decide) (by decide)
  exact ⟨h.1 [65], h.2⟩

/-- C8: the worked example — `A_환경데이터.csv` with temperatures 20, 22 and
humidities 60, 65; a workbook sheet `A` with fresh weights 1.0, 1.5; and
configuration `{A: 2.0}` — yields the aggregate values avg_temp 21.0,
avg_humidity 62.5, avg_weight 1.25, ec_target 2.0 and count 2. -/
theorem worked_example_aggregate :
    load_environment_core dirA = [([65], envRowsA)] ∧
    load_growth_core dirA = some [([65], growthRowsA)] ∧
    avg_df ecMapA [([65], envRowsA)] =
      [{ school := [65], temp := some 21, hum := some (125 / 2), ph := some (13 / 2),
         ec := some (5 / 2), ecTarget := some 2 }] ∧
    weight_df ecMapA [([65], growthRowsA)] =
      some [{ school := [65], ec := 2, meanWeight := some (5 / 4) }] ∧
    overview_rows ecMapA [([65], growthRowsA)] =
      [{ school := [65], ecTarget := 2, count := 2, color := none }] := by
  have hd : dictGet ecMapA ([65] : Name) = some 2 := by decide
  refine ⟨rfl, rfl, ?_, ?_, ?_⟩
  · simp [avg_df, envRowsA, colMean, hd]
    norm_num
  · simp [weight_df, growthRowsA, colMean, hd]
    norm_num
  · decide

/-- In the scan of Python `max(..., key=...)`, a key `g` whose defined
value `m` strictly exceeds every other entry's (defined) value wins. -/
theorem pymaxKey_strict_max (g : Name) (m : ℚ) :
    ∀ (l : List (Name × Option ℚ)) (k : Name) (v : Option ℚ),
      ((k = g ∧ v = some m) ∨ ((g, some m) ∈ l ∧ ∃ y, v = some y ∧ y < m)) →
      (∀ p ∈ l, p.1 ≠ g → ∃ y, p.2 = some y ∧ y < m) →
      (∀ p ∈ l, p.1 = g → p.2 = some m) →
      pymaxKey k v l = g := by
  intro l
  induction l with
  | nil =>
    intro k v hinv _ _
    rcases hinv with ⟨hk, _⟩ | ⟨hmem, _⟩
    · exact hk
    · simp at hmem
  | cons q rest ih =>
    obtain ⟨k', v'⟩ := q
    intro k v hinv hlt hself
    by_cases hgt : pyGT v' v = true
    · simp only [pymaxKey, if_pos hgt]
      refine ih k' v' ?_ (fun p hp => hlt p (List.mem_cons_of_mem _ hp))
        (fun p hp => hself p (List.mem_cons_of_mem _ hp))
      by_cases hk' : k' = g
      · exact Or.inl ⟨hk', hself (k', v') (List.mem_cons_self _ _) hk'⟩
      · obtain ⟨y', hy', hy'lt⟩ := hlt (k', v') (List.mem_cons_self _ _) hk'
        have hmem : (g, some m) ∈ rest := by
          rcases hinv with ⟨hk, hv⟩ | ⟨hmem, y, hv, hylt⟩
          · have hy2 : v' = some y' := hy'
            rw [hv, hy2] at hgt
            simp only [pyGT, decide_eq_true_eq] at hgt
            exact absurd hgt (not_lt_of_lt hy'lt)
          · rcases List.mem_cons.mp hmem with heq | hr
            · exact absurd (congrArg Prod.fst heq).symm hk'
            · exact hr
        exact Or.inr ⟨hmem, y', hy', hy'lt⟩
    · simp only [pymaxKey, if_neg hgt]
      refine ih k v ?_ (fun p hp => hlt p (List.mem_cons_of_mem _ hp))
        (fun p hp => hself p (List.mem_cons_of_mem _ hp))
      rcases hinv with ⟨hk, hv⟩ | ⟨hmem, y, hv, hylt⟩
      · exact Or.inl ⟨hk, hv⟩
      · have hr : (g, some m) ∈ rest := by
          rcases List.mem_cons.mp hmem with heq | hr
          · exfalso
            apply hgt
            have hv' : v' = some m := (congrArg Prod.snd heq).symm
            rw [hv', hv]
            simp only [pyGT, decide_eq_true_eq]
            exact hylt
          · exact hr
        exact Or.inr ⟨hr, y, hv, hylt⟩

/-- C10: the computed optimal EC equals the configured level of the group
whose mean fresh weight is (strictly) maximal over the loaded growth
tables, while the school name displayed beside it — in tab 1's `최적 EC`
metric and tab 3's delta text alike — is the hard-coded constant `하늘고`,
independent of which group attains the maximum. -/
theorem optimal_ec_label_hardcoded (growth : List (Name × GrowthTable))
    (ecMap : List (Name × ℚ)) (g : Name) (m e : ℚ)
    (hg : (g, some m) ∈ mean_weights growth)
    (hmax : ∀ p ∈ mean_weights growth, p.1 ≠ g → ∃ y, p.2 = some y ∧ y < m)
    (hself : ∀ p ∈ mean_weights growth, p.1 = g → p.2 = some m)
    (hec : dictGet ecMap g = some e) :
    optimal_metric growth ecMap = some (e, haneulgo) ∧
    (∀ growth' ecMap' x, optimal_metric growth' ecMap' = some x → x.2 = haneulgo) ∧
    (∀ growth' ecMap' x, delta_label ecMap' growth' = some x → x.2 = haneulgo) := by
  refine ⟨?_, ?_, ?_⟩
  · have hbs : best_school (mean_weights growth) = some g := by
      cases hmw : mean_weights growth with
      | nil => rw [hmw] at hg; simp at hg
      | cons q rest =>
        rw [hmw] at hg hmax hself
        obtain ⟨k', v'⟩ := q
        simp only [best_school]
        refine congrArg some (pymaxKey_strict_max g m rest k' v' ?_
          (fun p hp => hmax p (List.mem_cons_of_mem _ hp))
          (fun p hp => hself p (List.mem_cons_of_mem _ hp)))
        by_cases hk' : k' = g
        · exact Or.inl ⟨hk', hself (k', v') (List.mem_cons_self _ _) hk'⟩
        · obtain ⟨y, hy, hylt⟩ := hmax (k', v') (List.mem_cons_self _ _) hk'
          have hmem : (g, some m) ∈ rest := by
            rcases List.mem_cons.mp hg with heq | hr
            · exact absurd (congrArg Prod.fst heq).symm hk'
            · exact hr
          exact Or.inr ⟨hmem, y, hy, hylt⟩
    simp [optimal_metric, best_ec, hbs, hec]
  · intro growth' ecMap' x hx
    simp only [optimal_metric, Option.map_eq_some'] at hx
    obtain ⟨e', _, hx2⟩ := hx
    rw [← hx2]
  · intro growth' ecMap' x hx
    simp only [delta_label, Option.map_eq_some'] at hx
    obtain ⟨r, _, hx2⟩ := hx
    rw [← hx2]

/-- C10 witness: with growth data where 송도고 (configured EC 1.0) attains
the maximal mean fresh weight, the computed optimal EC is 송도고's 1.0 —
but the label displayed next to it is still `하늘고`. -/
theorem optimal_ec_label_hardcoded_witness :
    optimal_metric growth10 EC_INFO = some (1, haneulgo) := by
  have hmw : mean_weights growth10 = [(songdogo, some 10), (haneulgo, some 1)] := by
    simp [mean_weights, growth10, colMean]
  refine (optimal_ec_label_hardcoded growth10 EC_INFO songdogo 10 1 ?_ ?_ ?_ ?_).1
  · rw [hmw]
    exact List.mem_cons_self _ _
  · rw [hmw]
    intro p hp hne
    rcases List.mem_cons.mp hp with heq | hp'
    · exact absurd (by rw [heq]) hne
    · rcases List.mem_cons.mp hp' with heq | hnil
      · exact ⟨1, by rw [heq], by norm_num⟩
      · simp at hnil
  · rw [hmw]
    intro p hp hpg
    rcases List.mem_cons.mp hp with heq | hp'
    · rw [heq]
    · rcases List.mem_cons.mp hp' with heq | hnil
      · rw [heq] at hpg
        exact absurd hpg (by decide)
      · simp at hnil
  · decide

end PolarPlant
